import Mathlib

set_option maxRecDepth 4000

/-!
Shallow embedding of the conversation pipeline and chunking algorithm of the
documentation-agent repository (`app/graph/nodes.py`, `app/graph/agent_graph.py`,
`app/services/document_processor.py`, `app/services/vector_store.py`), together
with proofs settling the specification claims about them.

Conventions of the embedding:
* Python dicts threaded through the pipeline become association lists
  (`State`); `{**state, "k": v}` becomes `State.upd`, which overwrites an
  existing key in place or appends a fresh one.
* The two external collaborators reachable from the pipeline (the ChromaDB
  query issued inside `VectorStore.search`, and `ChatOpenAI.ainvoke`) are an
  oracle (`Env`); a call that may raise is `Except String α`, the `String`
  being the exception text `str(e)`.
* Python `str.strip` is `pyStrip`, `str.upper` / `str.lower` are `pyUpper` /
  `pyLower` (ASCII approximation of Python's Unicode case mapping; all strings
  compared by the code are ASCII), `'\x7bsub\x7d' in s` is `containsSub s sub`,
  `s.split(sep)` is `pySplit s sep`.
* `uuid.uuid4()` chunk ids are omitted: they are opaque fresh tokens no claim
  or downstream computation depends on.
* `list(set(...))` has unspecified order in Python; it is modelled as a
  first-occurrence deduplication (`dedupKeepFirst`); no claim depends on the
  order.
-/

/-- One chat-history message (`ChatMessage` rows seen by the pipeline:
only `role` and `content` are read). -/
structure Msg where
  role : String
  content : String
deriving DecidableEq

/-- A metadata value as stored in chunk metadata dicts: the code stores
strings and ints (`level`). -/
inductive MVal where
  | s (v : String)
  | n (v : Nat)
deriving DecidableEq

/-- A chunk as returned by `VectorStore.search`: `\x7bcontent, metadata,
distance\x7d`.  `distance` is never read by any pipeline node and is omitted. -/
structure RChunk where
  content : String
  metadata : List (String × MVal)
deriving DecidableEq

/-- Values stored in the pipeline state dict. -/
inductive Val where
  | str (s : String)
  | nat (n : Nat)
  | msgs (l : List Msg)
  | chunks (l : List RChunk)
  | strList (l : List String)
  | dict (d : List (String × Val))

/-- The pipeline state: a string-keyed mapping, as the Python
`Dict[str, Any]` threaded through every node. -/
abbrev State := List (String × Val)

namespace State

/-- `state.get(k)` / `state[k]` lookup. -/
def get (s : State) (k : String) : Option Val :=
  match s with
  | [] => none
  | (k', v) :: rest => if k' = k then some v else get rest k

/-- `\x7b**state, k: v\x7d`: overwrite `k` in place if present, else append. -/
def upd (s : State) (k : String) (v : Val) : State :=
  match s with
  | [] => [(k, v)]
  | (k', v') :: rest => if k' = k then (k, v) :: rest else (k', v') :: upd rest k v

theorem get_upd (s : State) (k k' : String) (v : Val) :
    get (upd s k' v) k = if k' = k then some v else get s k := by
  induction s with
  | nil => by_cases h : k' = k <;> simp [get, upd, h]
  | cons p rest ih =>
    obtain ⟨k₀, v₀⟩ := p
    simp only [upd]
    by_cases h₀ : k₀ = k'
    · subst h₀
      rw [if_pos rfl]
      by_cases h₁ : k₀ = k <;> simp [get, h₁]
    · rw [if_neg h₀]
      have h₀' : k' ≠ k₀ := fun h => h₀ h.symm
      by_cases h₁ : k₀ = k
      · subst h₁
        simp [get, ih, h₀']
      · simp [get, h₁, ih]

theorem isSome_get_upd (s : State) (k k' : String) (v : Val)
    (h : (get s k).isSome = true) : (get (upd s k' v) k).isSome = true := by
  rw [get_upd]
  by_cases hk : k' = k <;> simp [hk, h]

end State

/-- `state.get(k, default)` returning the raw stored value. -/
def dgetV (s : State) (k : String) (d : Val) : Val :=
  (State.get s k).getD d

/-- `state.get(k, dflt)` read as a string.  In every state the pipeline
builds, the value under these keys is a string; a non-string value is mapped
to the default (unreachable on pipeline-built states). -/
def getStr (s : State) (k : String) (dflt : String) : String :=
  match State.get s k with
  | some (.str v) => v
  | _ => dflt

/-- `state.get(k, [])` read as a message list (only ever used for
`chat_history`, which the pipeline always stores as a list of messages). -/
def getMsgs (s : State) (k : String) : List Msg :=
  match State.get s k with
  | some (.msgs l) => l
  | _ => []

/-- The string value of a state field, if it is a string. -/
def valStr (s : State) (k : String) : Option String :=
  match State.get s k with
  | some (.str v) => some v
  | _ => none

/-- Python `l[-n:]`: the last `n` elements (all of them if fewer). -/
def lastN (n : Nat) (l : List α) : List α := l.drop (l.length - n)

/-- `"\n".join(f"\x7bmsg.role\x7d: \x7bmsg.content\x7d" for msg in l)`. -/
def joinMsgs (l : List Msg) : String :=
  String.intercalate "\n" (l.map fun m => m.role ++ ": " ++ m.content)

/-- Python whitespace for `str.strip` (ASCII subset). -/
def isWS (c : Char) : Bool := c.isWhitespace

/-- Python `str.strip()`: drop leading and trailing whitespace. -/
def pyStrip (s : String) : String :=
  ⟨((s.data.dropWhile isWS).reverse.dropWhile isWS).reverse⟩

/-- Does `pat` start the list?  (`l.startswith(pat)` on characters.) -/
def startsWithL (pat l : List Char) : Bool :=
  match pat, l with
  | [], _ => true
  | _ :: _, [] => false
  | a :: as, b :: bs => a = b && startsWithL as bs

/-- Python `s.split(sep)` for a non-empty separator, on characters:
leftmost non-overlapping cuts, keeping empty pieces.  Fuel-indexed scan;
fuel `≥` the list length suffices. -/
def splitAux (sep : List Char) : Nat → List Char → List Char → List (List Char)
  | _, [], acc => [acc.reverse]
  | 0, l, acc => [acc.reverse ++ l]
  | n + 1, c :: rest, acc =>
    if startsWithL sep (c :: rest) then
      acc.reverse :: splitAux sep n ((c :: rest).drop sep.length) []
    else
      splitAux sep n rest (c :: acc)

/-- Python `s.split(sep)` (non-empty `sep`). -/
def pySplit (s sep : String) : List String :=
  (splitAux sep.data s.data.length s.data []).map String.mk

/-- Python `sub in s` (substring containment, for a non-empty `sub`):
the split has at least two pieces iff `sub` occurs in `s`. -/
def containsSub (s sub : String) : Bool :=
  (pySplit s sub).length ≥ 2

/-- Python `str.upper()` (ASCII character mapping). -/
def pyUpper (s : String) : String := ⟨s.data.map Char.toUpper⟩

/-- Python `str.lower()` (ASCII character mapping). -/
def pyLower (s : String) : String := ⟨s.data.map Char.toLower⟩

/-- First-occurrence deduplication, standing in for Python `list(set(...))`
(whose order is unspecified; no claim depends on the order). -/
def dedupKeepFirst (l : List String) : List String :=
  go l []
where
  go : List String → List String → List String
  | [], _ => []
  | x :: rest, seen => if x ∈ seen then go rest seen else x :: go rest (x :: seen)

/-! ## Code-fence normalization (`GraphNodes.code_formatting_node`)

`re.sub(r'BTBTBT(\w+)?\n', lambda m: 'BTBTBT' + (m.group(1) or "text") + '\n', s)`
(writing BT for the backtick character): scan left to right; at each position a
match is three backticks, an optional maximal word-character run, and a
newline; replace an untagged fence by a `text`-tagged one and resume after the
match, otherwise advance one character. -/

/-- The backtick character (code point 96). -/
def BT : Char := Char.ofNat 96

/-- Python regex `\w` (ASCII approximation: letter, digit or underscore). -/
def isWordChar (c : Char) : Bool := c.isAlphanum || c = '_'

/-- The replacement language tag `"text"`. -/
def TEXT : List Char := ['t', 'e', 'x', 't']

/-- A match of the fence regex starts at `c :: rest`: a backtick, two more
backticks, then the maximal word run of `rest.drop 2` is followed by a
newline. -/
def fenceMatch (c : Char) (rest : List Char) : Prop :=
  c = BT ∧ rest.take 2 = [BT, BT] ∧
    ((rest.drop 2).dropWhile isWordChar).take 1 = ['\n']

instance (c : Char) (rest : List Char) : Decidable (fenceMatch c rest) := by
  unfold fenceMatch; infer_instance

/-- One `re.sub` pass, fuel-indexed (any fuel at least the list length gives
the fixpoint-free scan; see `tagAux_fuel`). -/
def tagAux : Nat → List Char → List Char
  | 0, l => l
  | _ + 1, [] => []
  | n + 1, c :: rest =>
    if fenceMatch c rest then
      let w := (rest.drop 2).takeWhile isWordChar
      BT :: BT :: BT ::
        ((if w.isEmpty then TEXT else w) ++
          '\n' :: tagAux n (((rest.drop 2).dropWhile isWordChar).drop 1))
    else
      c :: tagAux n rest

theorem length_dropWhile_le' (p : α → Bool) (l : List α) :
    (l.dropWhile p).length ≤ l.length := by
  induction l with
  | nil => simp [List.dropWhile]
  | cons a rest ih =>
    by_cases h : p a = true
    · simp only [List.dropWhile, h]
      exact Nat.le_trans ih (Nat.le_succ _)
    · simp [List.dropWhile, h]

theorem length_drop_le' (n : Nat) (l : List α) : (l.drop n).length ≤ l.length := by
  rw [List.length_drop]
  exact Nat.sub_le _ _

theorem tagAux_fuel (m : Nat) : ∀ (n : Nat) (l : List Char),
    l.length ≤ m → l.length ≤ n → tagAux m l = tagAux n l := by
  induction m with
  | zero =>
    intro n l hm _
    have : l = [] := List.eq_nil_of_length_eq_zero (Nat.le_zero.mp hm)
    subst this
    cases n <;> rfl
  | succ m ih =>
    intro n l hm hn
    match l with
    | [] => cases n <;> rfl
    | c :: rest =>
      match n, hn with
      | n + 1, hn =>
        simp only [List.length_cons, Nat.succ_le_succ_iff] at hm hn
        by_cases h : fenceMatch c rest
        · have hlen : (((rest.drop 2).dropWhile isWordChar).drop 1).length ≤ rest.length := by
            calc (((rest.drop 2).dropWhile isWordChar).drop 1).length
                ≤ ((rest.drop 2).dropWhile isWordChar).length := length_drop_le' _ _
              _ ≤ (rest.drop 2).length := length_dropWhile_le' _ _
              _ ≤ rest.length := length_drop_le' _ _
          simp only [tagAux, if_pos h]
          rw [ih n _ (Nat.le_trans hlen hm) (Nat.le_trans hlen hn)]
        · simp only [tagAux, if_neg h]
          rw [ih n rest hm hn]

/-- One pass of the fence-normalizing `re.sub` over a character list. -/
def tagFences (l : List Char) : List Char := tagAux l.length l

theorem tagFences_eq_tagAux {n : Nat} {l : List Char} (h : l.length ≤ n) :
    tagAux n l = tagFences l :=
  tagAux_fuel n l.length l h (Nat.le_refl _)

theorem fence_rest_len (rest : List Char) :
    (((rest.drop 2).dropWhile isWordChar).drop 1).length ≤ rest.length :=
  calc (((rest.drop 2).dropWhile isWordChar).drop 1).length
      ≤ ((rest.drop 2).dropWhile isWordChar).length := length_drop_le' _ _
    _ ≤ (rest.drop 2).length := length_dropWhile_le' _ _
    _ ≤ rest.length := length_drop_le' _ _

theorem tagFences_nil : tagFences [] = [] := rfl

theorem tagFences_cons_match {c : Char} {rest : List Char} (h : fenceMatch c rest) :
    tagFences (c :: rest) = BT :: BT :: BT ::
      ((if ((rest.drop 2).takeWhile isWordChar).isEmpty then TEXT
        else (rest.drop 2).takeWhile isWordChar) ++
        '\n' :: tagFences (((rest.drop 2).dropWhile isWordChar).drop 1)) := by
  show tagAux (rest.length + 1) (c :: rest) = _
  simp only [tagAux, if_pos h]
  rw [tagFences_eq_tagAux (fence_rest_len rest)]

theorem tagFences_cons_nomatch {c : Char} {rest : List Char} (h : ¬ fenceMatch c rest) :
    tagFences (c :: rest) = c :: tagFences rest := by
  show tagAux (rest.length + 1) (c :: rest) = _
  simp only [tagAux, if_neg h]
  rw [tagFences_eq_tagAux (Nat.le_refl _)]

theorem isWordChar_BT : isWordChar BT = false := by decide

theorem isWordChar_nl : isWordChar '\n' = false := by decide

theorem BT_ne_nl : BT ≠ '\n' := by decide

theorem take_one_shape {l : List α} {a : α} (h : l.take 1 = [a]) :
    l = a :: l.drop 1 := by
  cases l with
  | nil => simp at h
  | cons x rest =>
    simp only [List.take_succ_cons, List.take_zero] at h
    cases h
    simp

theorem take_two_shape {l : List α} {a b : α} (h : l.take 2 = [a, b]) :
    l = a :: b :: l.drop 2 := by
  cases l with
  | nil => simp at h
  | cons x rest =>
    cases rest with
    | nil => simp at h
    | cons y rest2 =>
      simp only [List.take_succ_cons, List.take_zero, List.cons.injEq, and_true] at h
      obtain ⟨h1, h2⟩ := h
      subst h1; subst h2
      simp

theorem tagFences_take_one (l : List Char) : (tagFences l).take 1 = l.take 1 := by
  cases l with
  | nil => rfl
  | cons c rest =>
    by_cases h : fenceMatch c rest
    · rw [tagFences_cons_match h, h.1]
      simp
    · rw [tagFences_cons_nomatch h]
      simp

theorem tagFences_take_two (l : List Char) : (tagFences l).take 2 = l.take 2 := by
  cases l with
  | nil => rfl
  | cons c rest =>
    by_cases h : fenceMatch c rest
    · rw [tagFences_cons_match h, h.1]
      have h1 : rest.take 1 = [BT] := by
        have := congrArg (List.take 1) h.2.1
        rwa [List.take_take] at this
      simp [List.take_succ_cons, h1]
    · rw [tagFences_cons_nomatch h]
      simp only [List.take_succ_cons, List.cons.injEq, true_and]
      have := tagFences_take_one rest
      simpa using this

/-- The initial maximal word run and the character right after it are
unchanged by a tagging pass (a pass only rewrites at fence positions, and a
fence starts with a backtick, which is not a word character). -/
theorem tagFences_word_head (l : List Char) :
    (tagFences l).takeWhile isWordChar = l.takeWhile isWordChar ∧
      ((tagFences l).dropWhile isWordChar).take 1 = (l.dropWhile isWordChar).take 1 := by
  induction l with
  | nil => exact ⟨rfl, rfl⟩
  | cons c rest ih =>
    by_cases h : fenceMatch c rest
    · rw [tagFences_cons_match h, h.1]
      constructor
      · rw [List.takeWhile_cons_of_neg (by simp [isWordChar_BT]),
          List.takeWhile_cons_of_neg (by simp [isWordChar_BT])]
      · rw [List.dropWhile_cons_of_neg (by simp [isWordChar_BT]),
          List.dropWhile_cons_of_neg (by simp [isWordChar_BT])]
        simp
    · rw [tagFences_cons_nomatch h]
      by_cases hc : isWordChar c = true
      · rw [List.takeWhile_cons_of_pos hc, List.takeWhile_cons_of_pos hc,
          List.dropWhile_cons_of_pos hc, List.dropWhile_cons_of_pos hc]
        exact ⟨congrArg (c :: ·) ih.1, ih.2⟩
      · rw [List.takeWhile_cons_of_neg (by simpa using hc),
          List.takeWhile_cons_of_neg (by simpa using hc),
          List.dropWhile_cons_of_neg (by simpa using hc),
          List.dropWhile_cons_of_neg (by simpa using hc)]
        exact ⟨rfl, rfl⟩

/-- A position at which the fence regex does not match still does not match
after the rest of the string has gone through a tagging pass. -/
theorem not_fenceMatch_tagFences {c : Char} {rest : List Char}
    (h : ¬ fenceMatch c rest) : ¬ fenceMatch c (tagFences rest) := by
  intro hm
  by_cases hc : c = BT
  · by_cases h2 : rest.take 2 = [BT, BT]
    · have h3 : ((rest.drop 2).dropWhile isWordChar).take 1 ≠ ['\n'] :=
        fun hx => h ⟨hc, h2, hx⟩
      have hshape := take_two_shape h2
      -- rest = BT :: BT :: rest2 with rest2 := rest.drop 2
      set rest2 := rest.drop 2 with hr2
      by_cases hA : fenceMatch BT (BT :: rest2)
      · -- the pass rewrites at the head of rest: output starts BT BT BT,
        -- so after `c` the fence candidate is followed by a backtick, not a newline
        rw [hshape, tagFences_cons_match hA] at hm
        have := hm.2.2
        simp only [List.drop_succ_cons, List.drop_zero] at this
        rw [List.dropWhile_cons_of_neg (by simp [isWordChar_BT])] at this
        simp at this
        exact BT_ne_nl this
      · rw [hshape, tagFences_cons_nomatch hA] at hm
        by_cases hB : fenceMatch BT rest2
        · rw [tagFences_cons_match hB] at hm
          have := hm.2.2
          simp only [List.drop_succ_cons, List.drop_zero] at this
          rw [List.dropWhile_cons_of_neg (by simp [isWordChar_BT])] at this
          simp at this
          exact BT_ne_nl this
        · rw [tagFences_cons_nomatch hB] at hm
          have := hm.2.2
          simp only [List.drop_succ_cons, List.drop_zero] at this
          rw [(tagFences_word_head rest2).2] at this
          exact h3 this
    · exact h2 ((tagFences_take_two rest) ▸ hm.2.1)
  · exact hc hm.1

/-- The position `c :: rest` is harmless for a second pass: if the fence
regex matches here, its word group is non-empty (so the replacement is the
match itself). -/
def matchOK : List Char → Prop
  | [] => True
  | c :: rest => fenceMatch c rest → (rest.drop 2).takeWhile isWordChar ≠ []

/-- Every position of the list is harmless for a second tagging pass. -/
def isTagged : List Char → Prop
  | [] => True
  | c :: rest => matchOK (c :: rest) ∧ isTagged rest

theorem isTagged_drop (n : Nat) : ∀ {l : List Char}, isTagged l → isTagged (l.drop n) := by
  induction n with
  | zero => intro l h; simpa using h
  | succ n ih =>
    intro l h
    cases l with
    | nil => simpa using h
    | cons c rest =>
      rw [List.drop_succ_cons]
      exact ih h.2

theorem isTagged_dropWhile (p : Char → Bool) :
    ∀ {l : List Char}, isTagged l → isTagged (l.dropWhile p) := by
  intro l
  induction l with
  | nil => intro h; simpa using h
  | cons c rest ih =>
    intro h
    by_cases hc : p c = true
    · rw [List.dropWhile_cons_of_pos hc]; exact ih h.2
    · rwa [List.dropWhile_cons_of_neg (by simpa using hc)]

theorem isTagged_append_word {w : List Char} {X : List Char}
    (hw : ∀ c ∈ w, isWordChar c = true) (hX : isTagged X) : isTagged (w ++ X) := by
  induction w with
  | nil => simpa using hX
  | cons d w' ih =>
    refine ⟨fun hm => ?_, ih fun c hc => hw c (List.mem_cons_of_mem _ hc)⟩
    have hd : isWordChar d = true := hw d (List.mem_cons_self _ _)
    rw [hm.1] at hd
    exact absurd hd (by simp [isWordChar_BT])

/-- On an `isTagged` list, a tagging pass is the identity. -/
theorem tagFences_of_isTagged : ∀ (n : Nat) (l : List Char), l.length ≤ n →
    isTagged l → tagFences l = l := by
  intro n
  induction n with
  | zero =>
    intro l hl _
    have : l = [] := List.eq_nil_of_length_eq_zero (Nat.le_zero.mp hl)
    simp [this, tagFences_nil]
  | succ n ih =>
    intro l hl ht
    cases l with
    | nil => exact tagFences_nil
    | cons c rest =>
      simp only [List.length_cons, Nat.succ_le_succ_iff] at hl
      by_cases h : fenceMatch c rest
      · obtain ⟨hOK, hrest⟩ := ht
        have hw : (rest.drop 2).takeWhile isWordChar ≠ [] := hOK h
        rw [tagFences_cons_match h]
        have hwne : ((rest.drop 2).takeWhile isWordChar).isEmpty = false := by
          simpa [List.isEmpty_iff] using hw
        rw [hwne]
        simp only [Bool.false_eq_true, if_false]
        -- the tail after the matched fence is a suffix of `rest`, hence tagged
        have htail : isTagged (((rest.drop 2).dropWhile isWordChar).drop 1) :=
          isTagged_drop 1 (isTagged_dropWhile _ (isTagged_drop 2 hrest))
        rw [ih _ (Nat.le_trans (fence_rest_len rest) hl) htail]
        -- reassemble `c :: rest` from the match decomposition
        have hsh : rest = BT :: BT :: rest.drop 2 := take_two_shape h.2.1
        have hnl : (rest.drop 2).dropWhile isWordChar =
            '\n' :: ((rest.drop 2).dropWhile isWordChar).drop 1 := take_one_shape h.2.2
        have hsplit : (rest.drop 2).takeWhile isWordChar ++
            (rest.drop 2).dropWhile isWordChar = rest.drop 2 :=
          List.takeWhile_append_dropWhile _ _
        rw [h.1]
        conv_rhs => rw [hsh, ← hsplit, hnl]
      · obtain ⟨_, hrest⟩ := ht
        rw [tagFences_cons_nomatch h, ih rest hl hrest]

theorem takeWhile_word_append_nl {w T : List Char}
    (hw : ∀ c ∈ w, isWordChar c = true) :
    (w ++ '\n' :: T).takeWhile isWordChar = w := by
  induction w with
  | nil => simp [List.takeWhile_cons_of_neg, isWordChar_nl]
  | cons a as ih =>
    rw [List.cons_append, List.takeWhile_cons_of_pos (hw a (List.mem_cons_self _ _))]
    exact congrArg (a :: ·) (ih fun c hc => hw c (List.mem_cons_of_mem _ hc))

/-- The output of a tagging pass is tagged: every fence the regex can match
in the output already carries a non-empty word tag. -/
theorem isTagged_tagFences : ∀ (n : Nat) (l : List Char), l.length ≤ n →
    isTagged (tagFences l) := by
  intro n
  induction n with
  | zero =>
    intro l hl
    have : l = [] := List.eq_nil_of_length_eq_zero (Nat.le_zero.mp hl)
    simp [this, tagFences_nil, isTagged]
  | succ n ih =>
    intro l hl
    cases l with
    | nil => rw [tagFences_nil]; trivial
    | cons c rest =>
      simp only [List.length_cons, Nat.succ_le_succ_iff] at hl
      by_cases h : fenceMatch c rest
      · rw [tagFences_cons_match h]
        set w := (rest.drop 2).takeWhile isWordChar with hw
        set T := tagFences (((rest.drop 2).dropWhile isWordChar).drop 1) with hT
        set w' : List Char := if w.isEmpty then TEXT else w with hw'
        have hword : ∀ d ∈ w', isWordChar d = true := by
          intro d hd
          rw [hw'] at hd
          by_cases he : w.isEmpty
          · rw [if_pos he] at hd
            fin_cases hd <;> decide
          · rw [if_neg he] at hd
            exact List.mem_takeWhile_imp hd
        have hne : w' ≠ [] := by
          rw [hw']
          by_cases he : w.isEmpty
          · simp [he, TEXT]
          · rw [if_neg he]
            intro hnil
            exact he (by simp [hnil])
        have hTt : isTagged T := ih _ (Nat.le_trans (fence_rest_len rest) hl)
        have h1 : isTagged ('\n' :: T) :=
          ⟨fun hm => absurd hm.1 (by decide), hTt⟩
        have h2 : isTagged (w' ++ '\n' :: T) := isTagged_append_word hword h1
        obtain ⟨d, w'', hdw⟩ : ∃ d w'', w' = d :: w'' := by
          cases hwx : w' with
          | nil => exact absurd hwx hne
          | cons d w'' => exact ⟨d, w'', rfl⟩
        have hdword : isWordChar d = true := hword d (by rw [hdw]; exact List.mem_cons_self _ _)
        have hdBT : d ≠ BT := fun hEq => by
          rw [hEq, isWordChar_BT] at hdword
          exact Bool.false_ne_true hdword
        have h3 : isTagged (BT :: (w' ++ '\n' :: T)) := by
          refine ⟨fun hm => ?_, h2⟩
          have := hm.2.1
          rw [hdw] at this
          simp only [List.cons_append, List.take_succ_cons, List.cons.injEq] at this
          exact absurd this.1 hdBT
        have h4 : isTagged (BT :: BT :: (w' ++ '\n' :: T)) := by
          refine ⟨fun hm => ?_, h3⟩
          have := hm.2.1
          rw [hdw] at this
          simp only [List.cons_append, List.take_succ_cons, List.take_zero,
            List.cons.injEq] at this
          exact absurd this.2.1 hdBT
        refine ⟨fun _ => ?_, h4⟩
        -- the word group of the rewritten fence is exactly w', non-empty
        have : ((BT :: BT :: (w' ++ '\n' :: T)).drop 2).takeWhile isWordChar = w' := by
          simp only [List.drop_succ_cons, List.drop_zero]
          exact takeWhile_word_append_nl hword
        rw [this]
        exact hne
      · rw [tagFences_cons_nomatch h]
        exact ⟨fun hm => absurd hm (not_fenceMatch_tagFences h), ih rest hl⟩

/-- A tagging pass is idempotent on character lists. -/
theorem tagFences_idem (l : List Char) : tagFences (tagFences l) = tagFences l :=
  tagFences_of_isTagged (tagFences l).length _ (Nat.le_refl _)
    (isTagged_tagFences l.length l (Nat.le_refl _))

/-! ## The conversation pipeline (`app/graph/nodes.py`, `app/graph/agent_graph.py`)

The two long-latency collaborator calls are an oracle `Env`:
`chroma` is the ChromaDB query performed inside `VectorStore.search`
(`collection.query` plus result formatting), `llm` is `ChatOpenAI.ainvoke`
returning `response.content`.  An `Except.error e` is a raised exception with
text `str(e) = e`.

Prompt strings reproduce the Python f-string literals' text; the indentation
whitespace of the triple-quoted source literals is elided (prompts are only
ever passed opaquely to the `llm` oracle). -/

/-- The external collaborators reachable from the pipeline. -/
structure Env where
  chroma : String → String → Nat → Except String (List RChunk)
  llm : String → Except String String

/-- `VectorStore.search(query, chat_id, top_k)`: formats the ChromaDB query
result, catching every exception and returning `[]` on failure. -/
def vsSearch (E : Env) (query chat_id : String) (top_k : Nat) : List RChunk :=
  match E.chroma query chat_id top_k with
  | .ok l => l
  | .error _ => []

/-- The string of three backticks. -/
def fenceStr : String := ⟨[BT, BT, BT]⟩

/-- `GraphNodes.input_node`. -/
def input_node (s : State) : State :=
  (s.upd "user_message" (dgetV s "message" (.str ""))).upd
    "current_step" (.str "input_received")

/-- The intent-classification context: last 3 history messages, or `""` for
an empty history. -/
def intentContext (s : State) : String :=
  let chat_history := getMsgs s "chat_history"
  if chat_history.isEmpty then "" else joinMsgs (lastN 3 chat_history)

/-- The four valid intent labels. -/
def validIntents : List String :=
  ["GENERAL_QUESTION", "CODE_QUESTION", "FOLLOW_UP", "CLARIFICATION_NEEDED"]

/-- The intent-classification prompt. -/
def intentPrompt (context user_message : String) : String :=
  "Analyze the user\x27s intent based on their message and conversation context.\n" ++
  "Conversation Context:\n" ++ context ++
  "\nUser Message: " ++ user_message ++
  "\nClassify the intent into one of these categories:\n" ++
  "1. GENERAL_QUESTION - General questions about the documentation\n" ++
  "2. CODE_QUESTION - Questions about specific code or implementation\n" ++
  "3. FOLLOW_UP - Follow-up questions that reference previous conversation\n" ++
  "4. CLARIFICATION_NEEDED - Unclear or ambiguous questions\n" ++
  "Respond with only the category name."

/-- `GraphNodes.intent_analysis_node`: classify, validate against the four
labels, fall back to `GENERAL_QUESTION` on an invalid label or any
exception. -/
def intent_analysis_node (E : Env) (s : State) : State :=
  let user_message := getStr s "user_message" ""
  match E.llm (intentPrompt (intentContext s) user_message) with
  | .ok resp =>
    let intent := pyUpper (pyStrip resp)
    let intent := if validIntents.contains intent then intent else "GENERAL_QUESTION"
    (s.upd "intent" (.str intent)).upd "current_step" (.str "intent_analyzed")
  | .error _ =>
    (s.upd "intent" (.str "GENERAL_QUESTION")).upd "current_step" (.str "intent_analyzed")

/-- The `routing_map` dict lookup with default `"rag_node"`. -/
def routingMap (intent : String) : String :=
  if intent = "GENERAL_QUESTION" then "rag_node"
  else if intent = "CODE_QUESTION" then "code_analysis_node"
  else if intent = "FOLLOW_UP" then "rag_node"
  else if intent = "CLARIFICATION_NEEDED" then "clarification_node"
  else "rag_node"

/-- `GraphNodes.conditional_router`. -/
def conditional_router (s : State) : State :=
  let intent := getStr s "intent" "GENERAL_QUESTION"
  (s.upd "next_node" (.str (routingMap intent))).upd "current_step" (.str "routed")

/-- The fixed no-information response of `rag_node`. -/
def noInfoMsg : String :=
  "I couldn\x27t find relevant information in the documentation to answer " ++
  "your question. Could you please rephrase or ask about a different topic?"

/-- `"\n\n".join(chunk['content'] for chunk in chunks)`. -/
def chunkContext (chunks : List RChunk) : String :=
  String.intercalate "\n\n" (chunks.map (·.content))

/-- The generation context: last 5 history messages, or `""` for an empty
history. -/
def conversationContext (chat_history : List Msg) : String :=
  if chat_history.isEmpty then "" else joinMsgs (lastN 5 chat_history)

/-- `metadata.get(k)` on a chunk metadata dict. -/
def mGet (md : List (String × MVal)) (k : String) : Option MVal :=
  match md with
  | [] => none
  | (k', v) :: rest => if k' = k then some v else mGet rest k

/-- `chunk['metadata'].get('url', '')` filtered by Python truthiness (the
`if chunk['metadata'].get('url')` guard of the source-list comprehension).
The metadata built by this repository stores urls as strings; a stored int
is rendered for totality but unreachable. -/
def chunkUrl (c : RChunk) : Option String :=
  match mGet c.metadata "url" with
  | some (.s u) => if u = "" then none else some u
  | some (.n n) => if n = 0 then none else some (toString n)
  | none => none

/-- `list(set(... urls ...))` of a chunk list. -/
def sourcesOf (chunks : List RChunk) : List String :=
  dedupKeepFirst (chunks.filterMap chunkUrl)

/-- The general-RAG answer prompt. -/
def ragPrompt (conversation_context context user_message : String) : String :=
  "You are a helpful assistant that answers questions about technical documentation.\n" ++
  "Conversation History:\n" ++ conversation_context ++
  "\nRelevant Documentation Context:\n" ++ context ++
  "\nUser Question: " ++ user_message ++
  "\nPlease provide a comprehensive and accurate answer based on the documentation context.\n" ++
  "If the answer includes code, format it properly with markdown.\n" ++
  "If you\x27re not sure about something, say so clearly.\n" ++
  "Answer:"

/-- `GraphNodes.rag_node`: retrieve top-5, short-circuit on no results,
otherwise generate; any exception (the model call) becomes an error
response with empty sources. -/
def rag_node (E : Env) (s : State) : State :=
  let user_message := getStr s "user_message" ""
  let chat_id := getStr s "chat_id" ""
  let chat_history := getMsgs s "chat_history"
  let relevant_chunks := vsSearch E user_message chat_id 5
  if relevant_chunks.isEmpty then
    ((s.upd "retrieved_chunks" (.chunks [])).upd
      "current_step" (.str "rag_completed")).upd "response" (.str noInfoMsg)
  else
    match E.llm (ragPrompt (conversationContext chat_history)
        (chunkContext relevant_chunks) user_message) with
    | .ok resp =>
      (((s.upd "retrieved_chunks" (.chunks relevant_chunks)).upd
        "response" (.str resp)).upd
        "sources" (.strList (sourcesOf relevant_chunks))).upd
        "current_step" (.str "rag_completed")
    | .error e =>
      ((s.upd "response" (.str ("Error retrieving information: " ++ e))).upd
        "sources" (.strList [])).upd "current_step" (.str "rag_completed")

/-- The code filter of `code_analysis_node`: metadata `chunk_type` equals
`"code"`, or `'code' in content.lower()`, or three backticks occur in the
content. -/
def isCodeRelevant (c : RChunk) : Bool :=
  decide (mGet c.metadata "chunk_type" = some (MVal.s "code")) ||
    containsSub (pyLower c.content) "code" || containsSub c.content fenceStr

/-- The code-explanation prompt. -/
def codePrompt (code_context user_message : String) : String :=
  "You are a technical assistant specializing in code analysis and explanation.\n" ++
  "Code Context:\n" ++ code_context ++
  "\nUser Question: " ++ user_message ++
  "\nPlease provide a detailed explanation of the code, including:\n" ++
  "1. What the code does\n" ++
  "2. How it works\n" ++
  "3. Any important patterns or concepts\n" ++
  "4. Examples if relevant\n" ++
  "Format code blocks properly with markdown syntax highlighting."

/-- `GraphNodes.code_analysis_node`: retrieve top-10, filter to
code-relevant chunks, delegating to `rag_node` on an empty filter result and
on any exception. -/
def code_analysis_node (E : Env) (s : State) : State :=
  let user_message := getStr s "user_message" ""
  let chat_id := getStr s "chat_id" ""
  let code_chunks := vsSearch E user_message chat_id 10
  let code_relevant_chunks := code_chunks.filter isCodeRelevant
  if code_relevant_chunks.isEmpty then
    rag_node E s
  else
    match E.llm (codePrompt (chunkContext code_relevant_chunks) user_message) with
    | .ok resp =>
      (((s.upd "retrieved_chunks" (.chunks code_relevant_chunks)).upd
        "response" (.str resp)).upd
        "sources" (.strList (sourcesOf code_relevant_chunks))).upd
        "current_step" (.str "code_analysis_completed")
    | .error _ => rag_node E s

/-- The clarification prompt. -/
def clarificationPrompt (user_message : String) : String :=
  "The user\x27s question seems unclear or ambiguous:\n" ++
  "User Question: " ++ user_message ++
  "\nPlease ask for clarification to better understand what they\x27re looking for.\n" ++
  "Be specific about what additional information would help you provide a better answer."

/-- The fixed clarification fallback response. -/
def clarFallback : String :=
  "I\x27m not sure I understand your question. Could you please rephrase it " ++
  "or provide more details?"

/-- `GraphNodes.clarification_node`. -/
def clarification_node (E : Env) (s : State) : State :=
  let user_message := getStr s "user_message" ""
  match E.llm (clarificationPrompt user_message) with
  | .ok resp =>
    ((s.upd "response" (.str resp)).upd "sources" (.strList [])).upd
      "current_step" (.str "clarification_requested")
  | .error _ =>
    ((s.upd "response" (.str clarFallback)).upd "sources" (.strList [])).upd
      "current_step" (.str "clarification_requested")

/-- The response post-processing of `code_formatting_node`: if the response
contains a fence, normalize untagged fences to `text`-tagged ones; otherwise
leave it unchanged. -/
def formatResponse (response : String) : String :=
  if containsSub response fenceStr then ⟨tagFences response.data⟩ else response

/-- `GraphNodes.code_formatting_node`. -/
def code_formatting_node (s : State) : State :=
  let response := getStr s "response" ""
  (s.upd "response" (.str (formatResponse response))).upd
    "current_step" (.str "code_formatted")

/-- `GraphNodes.memory_node`: store the summary record under `"memory"`. -/
def memory_node (s : State) : State :=
  let chat_history := getMsgs s "chat_history"
  let user_message := getStr s "user_message" ""
  let response := getStr s "response" ""
  s.upd "memory" (.dict
    [("last_user_message", .str user_message),
     ("last_assistant_response", .str response),
     ("conversation_length", .nat (chat_history.length + 2)),
     ("current_step", .str "memory_updated")])

/-- `AgentGraph._route_based_on_intent`: the conditional-edge key. -/
def routeTarget (s : State) : String := getStr s "next_node" "rag_node"

/-- The conditional-edge dispatch of the compiled graph; the router writes
one of the three mapped keys, and `_route_based_on_intent` defaults to
`rag_node`. -/
def dispatch (E : Env) (s : State) : State :=
  match routeTarget s with
  | "code_analysis_node" => code_analysis_node E s
  | "clarification_node" => clarification_node E s
  | _ => rag_node E s

/-- One full run of the compiled LangGraph workflow:
input → intent analysis → router → (one generator) → formatting → memory. -/
def runGraph (E : Env) (init : State) : State :=
  memory_node (code_formatting_node (dispatch E
    (conditional_router (intent_analysis_node E (input_node init)))))

/-- The initial state built by `AgentGraph.process_message`. -/
def initState (message chat_id : String) (chat_history : List Msg) : State :=
  [("message", .str message), ("chat_id", .str chat_id),
   ("chat_history", .msgs chat_history), ("current_step", .str "started")]

/-- The record returned by `AgentGraph.process_message`. -/
structure PMResult where
  response : String
  sources : List String
  metadata : State

/-- `AgentGraph.process_message`.  `invokeFault` models an exception raised
by the LangGraph runtime at `self.graph.ainvoke` (an external library call
inside the `try`); the pipeline nodes themselves never raise.  The defaults
(`"No response generated"`, `[]`, `"unknown"`, count `0`) follow the
`final_state.get(...)` calls of the source; a stored value of a different
shape than the code expects is mapped to the default (unreachable: the
memory record only stores strings and an int). -/
def process_message (E : Env) (invokeFault : Option String)
    (message chat_id : String) (chat_history : List Msg) : PMResult :=
  match invokeFault with
  | some e =>
    { response := "Error processing your message: " ++ e
      sources := []
      metadata := [("error", .str e)] }
  | none =>
    let result := runGraph E (initState message chat_id chat_history)
    let final_state : State :=
      match State.get result "memory" with
      | some (.dict d) => d
      | _ => []
    { response :=
        match State.get final_state "response" with
        | some (.str v) => v
        | _ => "No response generated"
      sources :=
        match State.get final_state "sources" with
        | some (.strList l) => l
        | _ => []
      metadata :=
        [("intent", .str (match State.get final_state "intent" with
            | some (.str v) => v
            | _ => "unknown")),
         ("current_step", .str (match State.get final_state "current_step" with
            | some (.str v) => v
            | _ => "unknown")),
         ("retrieved_chunks_count", .nat (match State.get final_state "retrieved_chunks" with
            | some (.chunks l) => l.length
            | _ => 0))] }

/-! ## Chunking and ingestion (`app/services/document_processor.py`) -/

/-- A chunk built by `DocumentProcessor` (`type` is `ctype`; the `uuid4` id
is omitted). -/
structure PChunk where
  content : String
  ctype : String
  metadata : List (String × MVal)
deriving DecidableEq

/-- One extracted section: `\x7btitle, level, content, id\x7d`. -/
structure DocSection where
  title : String
  level : Nat
  content : String
  id : String

/-- One extracted code block: `\x7bcontent, language, id\x7d`. -/
structure CodeBlock where
  content : String
  language : String
  id : String

/-- The extracted page content handed to the chunker. -/
structure PageContent where
  title : String
  sections : List DocSection
  code_blocks : List CodeBlock

/-- The chunk flushed for one buffer of `_split_text_intelligently`. -/
def mkSectionPart (title url section_id : String) (level : Nat)
    (content : String) : PChunk :=
  { content := content
    ctype := "section"
    metadata := [("url", .s url), ("section", .s title),
      ("section_id", .s section_id), ("level", .n level),
      ("chunk_type", .s "section_part")] }

/-- The paragraph loop of `_split_text_intelligently`: strip each block,
skip empty ones, flush the buffer when the next paragraph would push it past
`maxSize` (and it has non-whitespace content), reseeding with
`"\x7btitle\x7d (continued)"`; always append the paragraph afterwards; flush any
non-empty remainder at the end. -/
def splitLoop (maxSize : Nat) (title url section_id : String) (level : Nat) :
    List String → List PChunk → String → List PChunk
  | [], chunks, current_chunk =>
    if pyStrip current_chunk ≠ "" then
      chunks ++ [mkSectionPart title url section_id level (pyStrip current_chunk)]
    else chunks
  | p :: rest, chunks, current_chunk =>
    let paragraph := pyStrip p
    if paragraph = "" then splitLoop maxSize title url section_id level rest chunks current_chunk
    else if maxSize < current_chunk.length + paragraph.length ∧ pyStrip current_chunk ≠ "" then
      splitLoop maxSize title url section_id level rest
        (chunks ++ [mkSectionPart title url section_id level (pyStrip current_chunk)])
        ((title ++ " (continued)\n\n") ++ paragraph ++ "\n\n")
    else
      splitLoop maxSize title url section_id level rest chunks
        (current_chunk ++ paragraph ++ "\n\n")

/-- `DocumentProcessor._split_text_intelligently`. -/
def split_text_intelligently (maxSize : Nat) (text title url section_id : String)
    (level : Nat) : List PChunk :=
  splitLoop maxSize title url section_id level (pySplit text "\n\n") [] (title ++ "\n\n")

/-- `DocumentProcessor._create_intelligent_chunks` (with `maxSize` standing
for `settings.max_chunk_size`): title chunk, per-section chunks in order,
code chunks in order. -/
def create_intelligent_chunks (maxSize : Nat) (content : PageContent)
    (url : String) : List PChunk :=
  (if content.title ≠ "" then
    [{ content := "Title: " ++ content.title
       ctype := "title"
       metadata := [("url", .s url), ("section", .s "title"),
         ("chunk_type", .s "title")] }]
   else []) ++
  (content.sections.flatMap fun sec =>
    if sec.content.length ≤ maxSize then
      [{ content := sec.title ++ "\n\n" ++ sec.content
         ctype := "section"
         metadata := [("url", .s url), ("section", .s sec.title),
           ("section_id", .s sec.id), ("level", .n sec.level),
           ("chunk_type", .s "section")] }]
    else split_text_intelligently maxSize sec.content sec.title url sec.id sec.level) ++
  (content.code_blocks.map fun cb =>
    { content := "Code Block (" ++ cb.language ++ "):\n" ++ fenceStr ++
        cb.language ++ "\n" ++ cb.content ++ "\n" ++ fenceStr
      ctype := "code"
      metadata := [("url", .s url), ("language", .s cb.language),
        ("code_id", .s cb.id), ("chunk_type", .s "code")] })

/-- The session row and the scope's stored chunks (database rows plus the
scope's vector-index partition, written together by `_store_chunks`). -/
structure SessionDB where
  status : String
  progress : Nat
  error_message : Option String
  storedChunks : List PChunk
deriving DecidableEq

/-- `DocumentProcessor._update_session_status` (for an existing session;
`error_message=None` leaves the recorded message unchanged). -/
def update_session_status (db : SessionDB) (status : String) (progress : Nat)
    (error_message : Option String) : SessionDB :=
  { db with
    status := status
    progress := progress
    error_message := (match error_message with
      | some m => some m
      | none => db.error_message) }

/-- `DocumentProcessor.process_documentation`.  `fetched` is the `_fetch_url`
result (`none` = fetch failed and was converted to `None`); the
`if not html_content` guard fires on both falsy values, `None` and the
empty string.  `extract` is `_extract_content` (an HTML-parsing
collaborator; it always returns a three-key dict, so the `if not content`
guard of the source never fires).  Returns the success flag and the updated
session/store state. -/
def process_documentation (fetched : Option String) (extract : String → PageContent)
    (maxSize : Nat) (url chat_id : String) (db : SessionDB) : Bool × SessionDB :=
  let db := update_session_status db "processing" 10 none
  match fetched with
  | none => (false, update_session_status db "failed" 0 (some "Failed to fetch URL"))
  | some html =>
    if html = "" then
      (false, update_session_status db "failed" 0 (some "Failed to fetch URL"))
    else
    let db := update_session_status db "processing" 30 none
    let content := extract html
    let db := update_session_status db "processing" 50 none
    let chunks := create_intelligent_chunks maxSize content url
    if chunks.isEmpty then
      (false, update_session_status db "failed" 0 (some "No chunks created"))
    else
      let db := update_session_status db "processing" 70 none
      let db := { db with storedChunks := db.storedChunks ++ chunks }
      (true, update_session_status db "completed" 100 none)

/-- The stripped non-empty members of a block list. -/
def cleanedList (l : List String) : List String :=
  (l.map pyStrip).filter (· ≠ "")

/-- The stripped non-empty blank-line-delimited paragraphs of a section's
content — exactly the paragraphs the split loop accumulates. -/
def cleanedParas (text : String) : List String :=
  cleanedList (pySplit text "\n\n")

/-- The split buffer seeded with `seed` after appending the paragraphs of
`l`, each followed by a blank line, exactly as the loop appends them. -/
def glue (seed : String) (l : List String) : String :=
  l.foldl (fun acc p => acc ++ p ++ "\n\n") seed

/-- The length of the longest stripped paragraph of a section's content. -/
def maxParaLen (text : String) : Nat :=
  ((cleanedParas text).map String.length).foldr max 0

/-! ## Helper lemmas about state reads through the pipeline -/

theorem State.get_upd_same (s : State) (k : String) (v : Val) :
    State.get (s.upd k v) k = some v := by
  rw [State.get_upd, if_pos rfl]

theorem State.get_upd_ne {k k' : String} (h : k' ≠ k) (s : State) (v : Val) :
    State.get (s.upd k' v) k = State.get s k := by
  rw [State.get_upd, if_neg h]

/-- `intent_analysis_node` only writes `intent` and `current_step`. -/
theorem get_intent_analysis_ne (E : Env) (s : State) {k : String}
    (h1 : k ≠ "intent") (h2 : k ≠ "current_step") :
    State.get (intent_analysis_node E s) k = State.get s k := by
  unfold intent_analysis_node
  dsimp only
  split <;>
    rw [State.get_upd_ne (Ne.symm h2), State.get_upd_ne (Ne.symm h1)]

/-! ## Claims -/

/-- C10: the response post-processing stage is idempotent — for every
response string, applying the fence-normalization transformation twice
yields the same string as applying it once (once every untagged fence has
been tagged with `text`, a second pass changes nothing). -/
theorem c10_formatResponse_idempotent (r : String) :
    formatResponse (formatResponse r) = formatResponse r := by
  by_cases h : containsSub r fenceStr = true
  · have h1 : formatResponse r = ⟨tagFences r.data⟩ := by
      rw [formatResponse, if_pos h]
    rw [h1, formatResponse]
    by_cases h2 : containsSub ⟨tagFences r.data⟩ fenceStr = true
    · rw [if_pos h2]
      exact congrArg String.mk (tagFences_idem r.data)
    · rw [if_neg h2]
  · have h1 : formatResponse r = r := by rw [formatResponse, if_neg h]
    rw [h1, h1]

/-- C7: for every classifier outcome — an exception from the model call, or
any returned text whose trimmed uppercased form is not one of the four valid
labels — the intent analysis stage sets `intent` to `GENERAL_QUESTION` and
advances `current_step` to `intent_analyzed` (the node is a total function:
it never aborts the pipeline). -/
theorem c7_intent_fallback (E : Env) (s : State)
    (h : ∀ r, E.llm (intentPrompt (intentContext s) (getStr s "user_message" "")) =
        Except.ok r → validIntents.contains (pyUpper (pyStrip r)) = false) :
    valStr (intent_analysis_node E s) "intent" = some "GENERAL_QUESTION" ∧
      valStr (intent_analysis_node E s) "current_step" = some "intent_analyzed" := by
  unfold intent_analysis_node
  dsimp only
  cases hE : E.llm (intentPrompt (intentContext s) (getStr s "user_message" "")) with
  | ok r =>
    dsimp only
    rw [h r hE]
    simp only [Bool.false_eq_true, if_false]
    constructor
    · rw [valStr, State.get_upd_ne (by decide), State.get_upd_same]
    · rw [valStr, State.get_upd_same]
  | error e =>
    dsimp only
    constructor
    · rw [valStr, State.get_upd_ne (by decide), State.get_upd_same]
    · rw [valStr, State.get_upd_same]

theorem c7_intent_fallback_witness :
    (∀ r, (Env.mk (fun _ _ _ => .ok []) (fun _ => .ok "BANANA")).llm
        (intentPrompt (intentContext []) (getStr [] "user_message" "")) =
        Except.ok r → validIntents.contains (pyUpper (pyStrip r)) = false) ∧
    (valStr (intent_analysis_node
        (Env.mk (fun _ _ _ => .ok []) (fun _ => .ok "BANANA")) []) "intent" =
        some "GENERAL_QUESTION" ∧
      valStr (intent_analysis_node
        (Env.mk (fun _ _ _ => .ok []) (fun _ => .ok "BANANA")) []) "current_step" =
        some "intent_analyzed") :=
  ⟨fun r hr => by cases hr; decide,
   c7_intent_fallback _ [] (fun r hr => by cases hr; decide)⟩

/-- C4: whenever none of the top-10 retrieved chunks passes the code filter
(metadata `chunk_type = "code"`, or `"code"` occurs case-insensitively in
the content, or three backticks occur in the content), and likewise whenever
the code stage's own model call raises, the code-focused stage returns
exactly the state the general retrieval stage returns on the same input
state. -/
theorem c4_code_node_delegates (E : Env) (s : State)
    (h : (vsSearch E (getStr s "user_message" "") (getStr s "chat_id" "") 10).filter
        isCodeRelevant = [] ∨
      (∃ e, E.llm (codePrompt
          (chunkContext ((vsSearch E (getStr s "user_message" "")
            (getStr s "chat_id" "") 10).filter isCodeRelevant))
          (getStr s "user_message" "")) = Except.error e)) :
    code_analysis_node E s = rag_node E s := by
  unfold code_analysis_node
  dsimp only
  rcases h with h | ⟨e, he⟩
  · rw [h]
    simp
  · by_cases hemp : (vsSearch E (getStr s "user_message" "")
        (getStr s "chat_id" "") 10).filter isCodeRelevant = []
    · rw [hemp]
      simp
    · rw [if_neg (by simpa [List.isEmpty_iff] using hemp), he]

theorem c4_code_node_delegates_witness :
    ((vsSearch (Env.mk (fun _ _ _ => .ok []) (fun _ => .ok "hi"))
        (getStr [] "user_message" "") (getStr [] "chat_id" "") 10).filter
        isCodeRelevant = [] ∨
      (∃ e, (Env.mk (fun _ _ _ => .ok []) (fun _ => .ok "hi")).llm
          (codePrompt (chunkContext ((vsSearch
            (Env.mk (fun _ _ _ => .ok []) (fun _ => .ok "hi"))
            (getStr [] "user_message" "") (getStr [] "chat_id" "") 10).filter
            isCodeRelevant)) (getStr [] "user_message" "")) = Except.error e)) ∧
    code_analysis_node (Env.mk (fun _ _ _ => .ok []) (fun _ => .ok "hi")) [] =
      rag_node (Env.mk (fun _ _ _ => .ok []) (fun _ => .ok "hi")) [] :=
  ⟨Or.inl rfl, c4_code_node_delegates _ [] (Or.inl rfl)⟩

/-- C2 counterexample: with a model oracle that always raises (`"boom"`), an
internal exception occurs during the run and is converted inside `rag_node`
(the pipeline state's response is the error text), yet the record
`process_message` returns has no `error` key in its metadata, and its
response text is the constant `"No response generated"` rather than a text
embedding the error description — refuting the claim that any internal
exception yields a record with a metadata error key and an error-bearing
response. -/
theorem c2_counterexample :
    State.get (process_message
      (Env.mk (fun _ _ _ => .ok [⟨"c", []⟩]) (fun _ => .error "boom"))
      none "hi" "c1" []).metadata "error" = none ∧
    (process_message
      (Env.mk (fun _ _ _ => .ok [⟨"c", []⟩]) (fun _ => .error "boom"))
      none "hi" "c1" []).response = "No response generated" ∧
    (process_message
      (Env.mk (fun _ _ _ => .ok [⟨"c", []⟩]) (fun _ => .error "boom"))
      none "hi" "c1" []).sources = [] ∧
    valStr (runGraph
      (Env.mk (fun _ _ _ => .ok [⟨"c", []⟩]) (fun _ => .error "boom"))
      (initState "hi" "c1" [])) "response" =
      some "Error retrieving information: boom" :=
  ⟨rfl, rfl, rfl, rfl⟩

/-- C2 (amended): `process_message` never raises to its caller — it is a
total function on every oracle.  An exception raised by the graph invocation
itself (`invokeFault`) is converted into a record whose response embeds the
error description, with empty sources and a metadata `error` key; exceptions
inside pipeline stages are caught within their stage, and the completed
run's metadata contains no `error` key. -/
theorem c2_process_message_never_raises (E : Env) (e m c : String) (h : List Msg) :
    process_message E (some e) m c h =
      { response := "Error processing your message: " ++ e
        sources := []
        metadata := [("error", Val.str e)] } ∧
    State.get (process_message E none m c h).metadata "error" = none := by
  constructor
  · rfl
  · simp only [process_message]
    simp [State.get]

/-- C8: for page content with empty title, no sections and no code blocks,
chunking yields zero chunks, and the ingestion step fails (the
`NoContentExtracted` failure of the spec): it returns `False`, records
status `"failed"` with the message `"No chunks created"`, and stores no
chunks in the scope's partition. -/
theorem c8_empty_content_fails (maxSize : Nat) (url chat_id html : String)
    (extract : String → PageContent) (db : SessionDB)
    (hhtml : html ≠ "") (hex : extract html = ⟨"", [], []⟩) :
    create_intelligent_chunks maxSize ⟨"", [], []⟩ url = [] ∧
    (process_documentation (some html) extract maxSize url chat_id db).1 = false ∧
    (process_documentation (some html) extract maxSize url chat_id db).2.status = "failed" ∧
    (process_documentation (some html) extract maxSize url chat_id db).2.error_message =
      some "No chunks created" ∧
    (process_documentation (some html) extract maxSize url chat_id db).2.storedChunks =
      db.storedChunks := by
  have hempty : create_intelligent_chunks maxSize ⟨"", [], []⟩ url = [] := by
    simp [create_intelligent_chunks]
  refine ⟨hempty, ?_, ?_, ?_, ?_⟩ <;>
    simp [process_documentation, hhtml, hex, hempty, update_session_status]

theorem c8_empty_content_fails_witness :
    (("<html></html>" : String) ≠ "") ∧
    ((fun _ : String => (⟨"", [], []⟩ : PageContent)) "<html></html>" = ⟨"", [], []⟩) ∧
    (create_intelligent_chunks 1000 ⟨"", [], []⟩ "http://u" = [] ∧
     (process_documentation (some "<html></html>") (fun _ => ⟨"", [], []⟩)
       1000 "http://u" "chat1" ⟨"pending", 0, none, []⟩).1 = false ∧
     (process_documentation (some "<html></html>") (fun _ => ⟨"", [], []⟩)
       1000 "http://u" "chat1" ⟨"pending", 0, none, []⟩).2.status = "failed" ∧
     (process_documentation (some "<html></html>") (fun _ => ⟨"", [], []⟩)
       1000 "http://u" "chat1" ⟨"pending", 0, none, []⟩).2.error_message =
       some "No chunks created" ∧
     (process_documentation (some "<html></html>") (fun _ => ⟨"", [], []⟩)
       1000 "http://u" "chat1" ⟨"pending", 0, none, []⟩).2.storedChunks =
       (⟨"pending", 0, none, []⟩ : SessionDB).storedChunks) :=
  ⟨by decide, rfl, c8_empty_content_fails 1000 "http://u" "chat1" "<html></html>"
    (fun _ => ⟨"", [], []⟩) ⟨"pending", 0, none, []⟩ (by decide) rfl⟩

/-- C1 (evaluation at the failing input): on a successful run — the index
returns one chunk with a url, the model returns an answer — the pipeline's
final state carries the generated response, its deduplicated source url and
the intent, but the record returned by `process_message` does not:
`process_message` reads `result.get("memory", \x7b\x7d)`, whose only keys are
`last_user_message`, `last_assistant_response`, `conversation_length` and
`current_step`, so the record's response is the constant
`"No response generated"`, its sources are `[]`, its metadata intent is
`"unknown"` and its chunk count is `0`, contradicting the claim (and the
spec's contract for the pipeline entry point). -/
theorem c1_process_message_drops_pipeline_output :
    (process_message
      (Env.mk (fun _ _ _ => .ok [⟨"Requests documentation.",
          [("url", MVal.s "http://docs/page"), ("chunk_type", MVal.s "section")]⟩])
        (fun _ => .ok "The documented API does this."))
      none "What does the API do?" "chat1" []).response = "No response generated" ∧
    (process_message
      (Env.mk (fun _ _ _ => .ok [⟨"Requests documentation.",
          [("url", MVal.s "http://docs/page"), ("chunk_type", MVal.s "section")]⟩])
        (fun _ => .ok "The documented API does this."))
      none "What does the API do?" "chat1" []).sources = [] ∧
    State.get (process_message
      (Env.mk (fun _ _ _ => .ok [⟨"Requests documentation.",
          [("url", MVal.s "http://docs/page"), ("chunk_type", MVal.s "section")]⟩])
        (fun _ => .ok "The documented API does this."))
      none "What does the API do?" "chat1" []).metadata "intent" =
      some (Val.str "unknown") ∧
    State.get (process_message
      (Env.mk (fun _ _ _ => .ok [⟨"Requests documentation.",
          [("url", MVal.s "http://docs/page"), ("chunk_type", MVal.s "section")]⟩])
        (fun _ => .ok "The documented API does this."))
      none "What does the API do?" "chat1" []).metadata "retrieved_chunks_count" =
      some (Val.nat 0) ∧
    State.get (process_message
      (Env.mk (fun _ _ _ => .ok [⟨"Requests documentation.",
          [("url", MVal.s "http://docs/page"), ("chunk_type", MVal.s "section")]⟩])
        (fun _ => .ok "The documented API does this."))
      none "What does the API do?" "chat1" []).metadata "current_step" =
      some (Val.str "memory_updated") ∧
    valStr (runGraph
      (Env.mk (fun _ _ _ => .ok [⟨"Requests documentation.",
          [("url", MVal.s "http://docs/page"), ("chunk_type", MVal.s "section")]⟩])
        (fun _ => .ok "The documented API does this."))
      (initState "What does the API do?" "chat1" [])) "response" =
      some "The documented API does this." ∧
    State.get (runGraph
      (Env.mk (fun _ _ _ => .ok [⟨"Requests documentation.",
          [("url", MVal.s "http://docs/page"), ("chunk_type", MVal.s "section")]⟩])
        (fun _ => .ok "The documented API does this."))
      (initState "What does the API do?" "chat1" [])) "sources" =
      some (Val.strList ["http://docs/page"]) ∧
    valStr (runGraph
      (Env.mk (fun _ _ _ => .ok [⟨"Requests documentation.",
          [("url", MVal.s "http://docs/page"), ("chunk_type", MVal.s "section")]⟩])
        (fun _ => .ok "The documented API does this."))
      (initState "What does the API do?" "chat1" [])) "intent" =
      some "GENERAL_QUESTION" :=
  ⟨rfl, rfl, rfl, rfl, rfl, rfl, rfl, rfl⟩

/-- C9: every pipeline stage returns a state whose key set contains the key
set of its input state — no stage removes a field written by a prior
stage. -/
theorem c9_no_stage_drops_fields (E : Env) (s : State) (k : String)
    (h : (State.get s k).isSome = true) :
    (State.get (input_node s) k).isSome = true ∧
    (State.get (intent_analysis_node E s) k).isSome = true ∧
    (State.get (conditional_router s) k).isSome = true ∧
    (State.get (rag_node E s) k).isSome = true ∧
    (State.get (code_analysis_node E s) k).isSome = true ∧
    (State.get (clarification_node E s) k).isSome = true ∧
    (State.get (code_formatting_node s) k).isSome = true ∧
    (State.get (memory_node s) k).isSome = true := by
  have hupd : ∀ (s' : State) (k' : String) (v : Val),
      (State.get s' k).isSome = true → (State.get (State.upd s' k' v) k).isSome = true :=
    fun s' k' v hh => State.isSome_get_upd s' k k' v hh
  have hrag : ∀ s' : State, (State.get s' k).isSome = true →
      (State.get (rag_node E s') k).isSome = true := by
    intro s' hs
    unfold rag_node
    dsimp only
    split
    · exact hupd _ _ _ (hupd _ _ _ (hupd _ _ _ hs))
    · split
      · exact hupd _ _ _ (hupd _ _ _ (hupd _ _ _ (hupd _ _ _ hs)))
      · exact hupd _ _ _ (hupd _ _ _ (hupd _ _ _ hs))
  refine ⟨?_, ?_, ?_, hrag s h, ?_, ?_, ?_, ?_⟩
  · exact hupd _ _ _ (hupd _ _ _ h)
  · unfold intent_analysis_node
    dsimp only
    split <;> exact hupd _ _ _ (hupd _ _ _ h)
  · unfold conditional_router
    dsimp only
    exact hupd _ _ _ (hupd _ _ _ h)
  · unfold code_analysis_node
    dsimp only
    split
    · exact hrag s h
    · split
      · exact hupd _ _ _ (hupd _ _ _ (hupd _ _ _ (hupd _ _ _ h)))
      · exact hrag s h
  · unfold clarification_node
    dsimp only
    split <;> exact hupd _ _ _ (hupd _ _ _ (hupd _ _ _ h))
  · unfold code_formatting_node
    dsimp only
    exact hupd _ _ _ (hupd _ _ _ h)
  · unfold memory_node
    dsimp only
    exact hupd _ _ _ h

theorem c9_no_stage_drops_fields_witness :
    ((State.get [("x", Val.str "v")] "x").isSome = true) ∧
    ((State.get (input_node [("x", Val.str "v")]) "x").isSome = true ∧
     (State.get (intent_analysis_node
       (Env.mk (fun _ _ _ => .ok []) (fun _ => .ok "hello")) [("x", Val.str "v")]) "x").isSome = true ∧
     (State.get (conditional_router [("x", Val.str "v")]) "x").isSome = true ∧
     (State.get (rag_node
       (Env.mk (fun _ _ _ => .ok []) (fun _ => .ok "hello")) [("x", Val.str "v")]) "x").isSome = true ∧
     (State.get (code_analysis_node
       (Env.mk (fun _ _ _ => .ok []) (fun _ => .ok "hello")) [("x", Val.str "v")]) "x").isSome = true ∧
     (State.get (clarification_node
       (Env.mk (fun _ _ _ => .ok []) (fun _ => .ok "hello")) [("x", Val.str "v")]) "x").isSome = true ∧
     (State.get (code_formatting_node [("x", Val.str "v")]) "x").isSome = true ∧
     (State.get (memory_node [("x", Val.str "v")]) "x").isSome = true) :=
  ⟨rfl, c9_no_stage_drops_fields
    (Env.mk (fun _ _ _ => .ok []) (fun _ => .ok "hello")) [("x", Val.str "v")] "x" rfl⟩

/-- C3: whenever the general retrieval stage's index query returns zero
chunks, the pipeline's final state carries exactly the fixed
no-information response (post-processing and memory leave it untouched),
the record `process_message` returns has empty sources, and the generative
model is never invoked during that stage: the stage's result does not
depend on the `llm` oracle at all. -/
theorem c3_rag_zero_chunks_short_circuit
    (q : String → String → Nat → Except String (List RChunk))
    (llm llm' : String → Except String String)
    (m c : String) (hist : List Msg) (s : State)
    (h1 : vsSearch (Env.mk q llm) m c 5 = [])
    (h2 : routeTarget (conditional_router (intent_analysis_node (Env.mk q llm)
      (input_node (initState m c hist)))) = "rag_node")
    (hs_um : getStr s "user_message" "" = m)
    (hs_cid : getStr s "chat_id" "" = c) :
    valStr (runGraph (Env.mk q llm) (initState m c hist)) "response" = some noInfoMsg ∧
    (process_message (Env.mk q llm) none m c hist).sources = [] ∧
    rag_node (Env.mk q llm) s = rag_node (Env.mk q llm') s := by
  have hin_um : State.get (input_node (initState m c hist)) "user_message" =
      some (Val.str m) := by
    unfold input_node
    rw [State.get_upd_ne (by decide), State.get_upd_same]
    simp [dgetV, initState, State.get]
  have hin_cid : State.get (input_node (initState m c hist)) "chat_id" =
      some (Val.str c) := by
    unfold input_node
    rw [State.get_upd_ne (by decide), State.get_upd_ne (by decide)]
    simp [initState, State.get]
  have hr_um : State.get (conditional_router (intent_analysis_node (Env.mk q llm)
      (input_node (initState m c hist)))) "user_message" = some (Val.str m) := by
    unfold conditional_router
    dsimp only
    rw [State.get_upd_ne (by decide), State.get_upd_ne (by decide),
      get_intent_analysis_ne _ _ (by decide) (by decide), hin_um]
  have hr_cid : State.get (conditional_router (intent_analysis_node (Env.mk q llm)
      (input_node (initState m c hist)))) "chat_id" = some (Val.str c) := by
    unfold conditional_router
    dsimp only
    rw [State.get_upd_ne (by decide), State.get_upd_ne (by decide),
      get_intent_analysis_ne _ _ (by decide) (by decide), hin_cid]
  have hgum : getStr (conditional_router (intent_analysis_node (Env.mk q llm)
      (input_node (initState m c hist)))) "user_message" "" = m := by
    rw [getStr, hr_um]
  have hgcid : getStr (conditional_router (intent_analysis_node (Env.mk q llm)
      (input_node (initState m c hist)))) "chat_id" "" = c := by
    rw [getStr, hr_cid]
  have hdisp : dispatch (Env.mk q llm) (conditional_router (intent_analysis_node
      (Env.mk q llm) (input_node (initState m c hist)))) =
      rag_node (Env.mk q llm) (conditional_router (intent_analysis_node
        (Env.mk q llm) (input_node (initState m c hist)))) := by
    unfold dispatch
    rw [h2]
    rfl
  have hrag4 : rag_node (Env.mk q llm) (conditional_router (intent_analysis_node
      (Env.mk q llm) (input_node (initState m c hist)))) =
      (((conditional_router (intent_analysis_node (Env.mk q llm)
        (input_node (initState m c hist)))).upd "retrieved_chunks"
          (Val.chunks [])).upd "current_step" (Val.str "rag_completed")).upd
        "response" (Val.str noInfoMsg) := by
    unfold rag_node
    dsimp only
    rw [hgum, hgcid, h1]
    rfl
  refine ⟨?_, ?_, ?_⟩
  · unfold runGraph
    rw [hdisp, hrag4]
    unfold code_formatting_node
    dsimp only
    have hresp : getStr ((((conditional_router (intent_analysis_node (Env.mk q llm)
        (input_node (initState m c hist)))).upd "retrieved_chunks"
          (Val.chunks [])).upd "current_step" (Val.str "rag_completed")).upd
        "response" (Val.str noInfoMsg)) "response" "" = noInfoMsg := by
      rw [getStr, State.get_upd_same]
    rw [hresp]
    have hfmt : formatResponse noInfoMsg = noInfoMsg := by
      rw [formatResponse, if_neg (by decide)]
    rw [hfmt]
    unfold memory_node
    dsimp only
    rw [valStr, State.get_upd_ne (by decide), State.get_upd_ne (by decide),
      State.get_upd_same]
  · unfold process_message runGraph memory_node
    dsimp only
    rw [State.get_upd_same]
    simp [State.get]
  · unfold rag_node
    dsimp only
    rw [hs_um, hs_cid]
    have h1' : vsSearch (Env.mk q llm') m c 5 = [] := h1
    rw [h1, h1']
    rfl

theorem c3_rag_zero_chunks_short_circuit_witness :
    (vsSearch (Env.mk (fun _ _ _ => .ok []) (fun _ => .ok "GENERAL_QUESTION"))
      "hi" "c1" 5 = []) ∧
    (routeTarget (conditional_router (intent_analysis_node
      (Env.mk (fun _ _ _ => .ok []) (fun _ => .ok "GENERAL_QUESTION"))
      (input_node (initState "hi" "c1" [])))) = "rag_node") ∧
    (getStr [("user_message", Val.str "hi"), ("chat_id", Val.str "c1")]
      "user_message" "" = "hi") ∧
    (getStr [("user_message", Val.str "hi"), ("chat_id", Val.str "c1")]
      "chat_id" "" = "c1") ∧
    (valStr (runGraph (Env.mk (fun _ _ _ => .ok []) (fun _ => .ok "GENERAL_QUESTION"))
        (initState "hi" "c1" [])) "response" = some noInfoMsg ∧
      (process_message (Env.mk (fun _ _ _ => .ok []) (fun _ => .ok "GENERAL_QUESTION"))
        none "hi" "c1" []).sources = [] ∧
      rag_node (Env.mk (fun _ _ _ => .ok []) (fun _ => .ok "GENERAL_QUESTION"))
          [("user_message", Val.str "hi"), ("chat_id", Val.str "c1")] =
        rag_node (Env.mk (fun _ _ _ => .ok []) (fun _ => .error "x"))
          [("user_message", Val.str "hi"), ("chat_id", Val.str "c1")]) :=
  ⟨rfl, rfl, rfl, rfl,
   c3_rag_zero_chunks_short_circuit (fun _ _ _ => .ok [])
     (fun _ => .ok "GENERAL_QUESTION") (fun _ => .error "x") "hi" "c1" []
     [("user_message", Val.str "hi"), ("chat_id", Val.str "c1")] rfl rfl rfl rfl⟩

theorem pyStrip_length_le (s : String) : (pyStrip s).length ≤ s.length := by
  unfold pyStrip
  show (((s.data.dropWhile isWS).reverse.dropWhile isWS).reverse).length ≤ s.data.length
  rw [List.length_reverse]
  calc ((s.data.dropWhile isWS).reverse.dropWhile isWS).length
      ≤ (s.data.dropWhile isWS).reverse.length := length_dropWhile_le' _ _
    _ = (s.data.dropWhile isWS).length := List.length_reverse _
    _ ≤ s.data.length := length_dropWhile_le' _ _

/-- If the strip of a string is empty, every character of it is whitespace. -/
theorem all_ws_of_pyStrip_empty {s : String} (h : pyStrip s = "") :
    ∀ c ∈ s.data, isWS c = true := by
  intro c hc
  have hdata : (((s.data.dropWhile isWS).reverse.dropWhile isWS).reverse) = [] :=
    congrArg String.data h
  rw [List.reverse_eq_nil_iff] at hdata
  have hdrop : ∀ c ∈ (s.data.dropWhile isWS).reverse, isWS c = true :=
    List.dropWhile_eq_nil_iff.mp hdata
  have hsplit := List.takeWhile_append_dropWhile (p := isWS) (l := s.data)
  rw [← hsplit] at hc
  rcases List.mem_append.mp hc with hc | hc
  · exact List.mem_takeWhile_imp hc
  · exact hdrop c (List.mem_reverse.mpr hc)

/-- A string with a non-empty strip has a non-whitespace character. -/
theorem exists_non_ws_of_pyStrip_ne {p : String} (h : pyStrip p ≠ "") :
    ∃ c ∈ (pyStrip p).data, isWS c = false := by
  have hne : (p.data.dropWhile isWS).reverse.dropWhile isWS ≠ [] := by
    intro hnil
    apply h
    show String.mk ((p.data.dropWhile isWS).reverse.dropWhile isWS).reverse = ""
    rw [hnil]
    rfl
  have hlen : 0 < ((p.data.dropWhile isWS).reverse.dropWhile isWS).length :=
    List.length_pos.mpr hne
  have hhead := List.dropWhile_get_zero_not isWS ((p.data.dropWhile isWS).reverse) hlen
  refine ⟨((p.data.dropWhile isWS).reverse.dropWhile isWS).get ⟨0, hlen⟩, ?_,
    by simpa using hhead⟩
  show _ ∈ ((p.data.dropWhile isWS).reverse.dropWhile isWS).reverse
  rw [List.mem_reverse]
  exact List.get_mem _ _ _

/-- Appending a string with non-empty strip keeps the strip non-empty. -/
theorem pyStrip_concat_ne (a b p : String) (hp : pyStrip p ≠ "") :
    pyStrip (a ++ pyStrip p ++ b) ≠ "" := by
  intro hall
  obtain ⟨c, hc, hws⟩ := exists_non_ws_of_pyStrip_ne hp
  have : isWS c = true := by
    refine all_ws_of_pyStrip_empty hall c ?_
    rw [String.data_append, String.data_append, List.mem_append]
    exact Or.inl (List.mem_append.mpr (Or.inr hc))
  rw [this] at hws
  exact absurd hws (by decide)

theorem le_foldr_max {l : List Nat} {a : Nat} (h : a ∈ l) : a ≤ l.foldr max 0 := by
  induction l with
  | nil => cases h
  | cons x rest ih =>
    rcases List.mem_cons.mp h with h | h
    · subst h
      exact Nat.le_max_left _ _
    · exact Nat.le_trans (ih h) (Nat.le_max_right _ _)

theorem cleanedList_cons (p : String) (rest : List String) :
    cleanedList (p :: rest) =
      if pyStrip p = "" then cleanedList rest else pyStrip p :: cleanedList rest := by
  by_cases h : pyStrip p = "" <;> simp [cleanedList, h]

/-- Loop invariant for `splitLoop`: if the buffer is a seed followed by a
paragraph run adjacent (on the left) to the cleaned remainder inside `P`,
then every chunk the loop emits is the strip of a seed followed by a
contiguous run of `P`. -/
theorem splitLoop_shape (maxSize : Nat) (title url section_id : String) (level : Nat)
    (P : List String) :
    ∀ (rem : List String) (chunks : List PChunk) (cc : String),
      (∃ (cont : Bool) (sl : List String), (sl ++ cleanedList rem) <:+: P ∧
        cc = glue ((if cont then title ++ " (continued)" else title) ++ "\n\n") sl) →
      (∀ ch ∈ chunks, ∃ (cont : Bool) (sl : List String), sl <:+: P ∧
        ch.content = pyStrip (glue ((if cont then title ++ " (continued)" else title) ++ "\n\n") sl)) →
      ∀ ch ∈ splitLoop maxSize title url section_id level rem chunks cc,
        ∃ (cont : Bool) (sl : List String), sl <:+: P ∧
          ch.content = pyStrip (glue ((if cont then title ++ " (continued)" else title) ++ "\n\n") sl) := by
  intro rem
  induction rem with
  | nil =>
    intro chunks cc hcc hchunks ch hch
    obtain ⟨cont, sl, hinf, hccEq⟩ := hcc
    simp only [splitLoop] at hch
    split at hch
    · rcases List.mem_append.mp hch with h | h
      · exact hchunks ch h
      · have heq : ch = mkSectionPart title url section_id level (pyStrip cc) := by
          simpa using h
        subst heq
        refine ⟨cont, sl, ?_, ?_⟩
        · have hn : sl ++ cleanedList [] = sl := by simp [cleanedList]
          rwa [hn] at hinf
        · rw [hccEq]
          rfl
    · exact hchunks ch hch
  | cons p rest ih =>
    intro chunks cc hcc hchunks ch hch
    obtain ⟨cont, sl, hinf, hccEq⟩ := hcc
    simp only [splitLoop] at hch
    by_cases hp : pyStrip p = ""
    · rw [if_pos hp] at hch
      apply ih chunks cc ?_ hchunks ch hch
      refine ⟨cont, sl, ?_, hccEq⟩
      rwa [cleanedList_cons, if_pos hp] at hinf
    · rw [if_neg hp] at hch
      have hclean : cleanedList (p :: rest) = pyStrip p :: cleanedList rest := by
        rw [cleanedList_cons, if_neg hp]
      rw [hclean] at hinf
      split at hch
      · -- flush: reseed with the continued title and the current paragraph
        apply ih _ _ ?_ ?_ ch hch
        · refine ⟨true, [pyStrip p], ?_, ?_⟩
          · have hs : (pyStrip p :: cleanedList rest) <:+:P :=
              (List.suffix_append sl _).isInfix.trans hinf
            simpa using hs
          · show (title ++ " (continued)\n\n") ++ pyStrip p ++ "\n\n" = _
            have hseed : title ++ " (continued)\n\n" =
                ((if true then title ++ " (continued)" else title) ++ "\n\n") := by
              rw [if_pos rfl, String.append_assoc]
              rfl
            rw [hseed]
            rfl
        · intro ch' hch'
          rcases List.mem_append.mp hch' with h | h
          · exact hchunks ch' h
          · have heq : ch' = mkSectionPart title url section_id level (pyStrip cc) := by
              simpa using h
            subst heq
            refine ⟨cont, sl, (List.prefix_append sl _).isInfix.trans hinf, ?_⟩
            rw [hccEq]
            rfl
      · -- append the paragraph to the running buffer
        apply ih _ _ ?_ hchunks ch hch
        refine ⟨cont, sl ++ [pyStrip p], ?_, ?_⟩
        · rw [List.append_assoc]
          simpa using hinf
        · rw [hccEq]
          conv_rhs => rw [glue, List.foldl_append]
          rfl

/-- C6: every `section_part` chunk the splitter produces is the strip of its
seed (the section title, or the title followed by `" (continued)"`) followed
by a contiguous run of the section's whole stripped paragraphs
(blank-line-delimited blocks) in source order — no chunk contains a proper
fragment of a paragraph. -/
theorem c6_section_parts_are_whole_paragraph_runs (maxSize : Nat)
    (text title url section_id : String) (level : Nat) :
    ∀ ch ∈ split_text_intelligently maxSize text title url section_id level,
      ∃ (cont : Bool) (sl : List String), sl <:+: cleanedParas text ∧
        ch.content = pyStrip (glue
          ((if cont then title ++ " (continued)" else title) ++ "\n\n") sl) := by
  intro ch hch
  apply splitLoop_shape maxSize title url section_id level (cleanedParas text)
    (pySplit text "\n\n") [] (title ++ "\n\n") ?_ ?_ ch hch
  · refine ⟨false, [], ?_, rfl⟩
    simp only [List.nil_append]
    exact List.infix_refl _
  · intro ch' h
    cases h

theorem c6_section_parts_are_whole_paragraph_runs_witness :
    (mkSectionPart "T" "u" "s1" 1 "T" ∈
      split_text_intelligently 5 "aaa\n\nbbb" "T" "u" "s1" 1) ∧
    (∃ (cont : Bool) (sl : List String), sl <:+: cleanedParas "aaa\n\nbbb" ∧
      (mkSectionPart "T" "u" "s1" 1 "T").content = pyStrip (glue
        ((if cont then "T" ++ " (continued)" else "T") ++ "\n\n") sl)) :=
  ⟨by decide,
   c6_section_parts_are_whole_paragraph_runs 5 "aaa\n\nbbb" "T" "u" "s1" 1 _ (by decide)⟩

/-- C5 counterexample: with `max_chunk_size = 5`, a page with a section
whose single paragraph is longer than the bound, a short section whose
title pushes the combined chunk over the bound, and a code block, the
chunker emits non-title chunks whose content exceeds `max_chunk_size` —
the claimed invariant fails. -/
theorem c5_counterexample :
    ¬ (∀ ch ∈ create_intelligent_chunks 5
        ⟨"", [⟨"T", 1, "aaaaaaa", "s1"⟩, ⟨"TT", 1, "aaaaa", "s2"⟩],
          [⟨"aaaaaaaa", "text", "c0"⟩]⟩ "u",
        ch.ctype = "title" ∨ ch.content.length ≤ 5) := by
  decide

/-- Loop invariant for `splitLoop` chunk sizes: the buffer length never
exceeds `max (maxSize + 2) (title.length + 16 + Pmax)` where `Pmax` bounds
the stripped paragraph lengths, and a whitespace-only buffer is just the
initial seed. -/
theorem splitLoop_bound (maxSize : Nat) (title url section_id : String) (level : Nat)
    (Pmax : Nat) :
    ∀ (rem : List String) (chunks : List PChunk) (cc : String),
      cc.length ≤ max (maxSize + 2) (title.length + 16 + Pmax) →
      (pyStrip cc = "" → cc.length ≤ title.length + 2) →
      (∀ p ∈ rem, (pyStrip p).length ≤ Pmax) →
      (∀ ch ∈ chunks, ch.content.length ≤ max (maxSize + 2) (title.length + 16 + Pmax)) →
      ∀ ch ∈ splitLoop maxSize title url section_id level rem chunks cc,
        ch.content.length ≤ max (maxSize + 2) (title.length + 16 + Pmax) := by
  intro rem
  induction rem with
  | nil =>
    intro chunks cc hcc hws hrem hchunks ch hch
    simp only [splitLoop] at hch
    split at hch
    · rcases List.mem_append.mp hch with h | h
      · exact hchunks ch h
      · have heq : ch = mkSectionPart title url section_id level (pyStrip cc) := by
          simpa using h
        subst heq
        exact Nat.le_trans (pyStrip_length_le cc) hcc
    · exact hchunks ch hch
  | cons p rest ih =>
    intro chunks cc hcc hws hrem hchunks ch hch
    simp only [splitLoop] at hch
    by_cases hp : pyStrip p = ""
    · rw [if_pos hp] at hch
      exact ih chunks cc hcc hws (fun q hq => hrem q (List.mem_cons_of_mem _ hq))
        hchunks ch hch
    · rw [if_neg hp] at hch
      have hplen : (pyStrip p).length ≤ Pmax := hrem p (List.mem_cons_self _ _)
      have hl2 : ("\n\n" : String).length = 2 := rfl
      split at hch
      · -- flush and reseed with the continued title plus this paragraph
        apply ih _ _ ?_ ?_ (fun q hq => hrem q (List.mem_cons_of_mem _ hq)) ?_ ch hch
        · rw [String.length_append, String.length_append, String.length_append, hl2]
          have hl14 : (" (continued)\n\n" : String).length = 14 := rfl
          rw [hl14]
          refine Nat.le_trans ?_ (Nat.le_max_right _ _)
          omega
        · intro habs
          exact absurd habs (pyStrip_concat_ne (title ++ " (continued)\n\n") "\n\n" p hp)
        · intro ch' hch'
          rcases List.mem_append.mp hch' with h | h
          · exact hchunks ch' h
          · have heq : ch' = mkSectionPart title url section_id level (pyStrip cc) := by
              simpa using h
            subst heq
            exact Nat.le_trans (pyStrip_length_le cc) hcc
      · -- append the paragraph to the running buffer
        rename_i hcond
        apply ih _ _ ?_ ?_ (fun q hq => hrem q (List.mem_cons_of_mem _ hq)) hchunks ch hch
        · rw [String.length_append, String.length_append, hl2]
          rcases not_and_or.mp hcond with h | h
          · have hle : cc.length + (pyStrip p).length ≤ maxSize := Nat.le_of_not_lt h
            refine Nat.le_trans ?_ (Nat.le_max_left _ _)
            omega
          · have hcc2 : cc.length ≤ title.length + 2 := hws (not_not.mp h)
            refine Nat.le_trans ?_ (Nat.le_max_right _ _)
            omega
        · intro habs
          exact absurd habs (pyStrip_concat_ne cc "\n\n" p hp)

/-- C5 (amended): every chunk of type `section` — a whole-section chunk or a
`section_part` produced by the splitter — has content length at most
`(section title length) + 2 + max maxSize (14 + longest stripped paragraph
length)` of its section.  The initial title chunk and code chunks are not
bounded by `maxSize` (their length follows the title and code-block text). -/
theorem c5_section_chunk_bound (maxSize : Nat) (content : PageContent) (url : String) :
    ∀ ch ∈ create_intelligent_chunks maxSize content url, ch.ctype = "section" →
      ∃ sec ∈ content.sections,
        ch.content.length ≤ sec.title.length + 2 +
          max maxSize (14 + maxParaLen sec.content) := by
  intro ch hch hty
  unfold create_intelligent_chunks at hch
  have hl2 : ("\n\n" : String).length = 2 := rfl
  rcases List.mem_append.mp hch with h | h
  · rcases List.mem_append.mp h with h | h
    · -- the title chunk (or nothing): its ctype is "title"
      exfalso
      split at h
      · have heq := List.mem_singleton.mp h
        rw [heq] at hty
        simp at hty
      · cases h
    · -- a section chunk
      obtain ⟨sec, hsec, hin⟩ := List.mem_flatMap.mp h
      refine ⟨sec, hsec, ?_⟩
      by_cases hfit : sec.content.length ≤ maxSize
      · rw [if_pos hfit] at hin
        have heq := List.mem_singleton.mp hin
        rw [heq]
        show (sec.title ++ "\n\n" ++ sec.content).length ≤ _
        rw [String.length_append, String.length_append, hl2]
        have := Nat.le_max_left maxSize (14 + maxParaLen sec.content)
        omega
      · rw [if_neg hfit] at hin
        have hcc : (sec.title ++ "\n\n").length ≤
            max (maxSize + 2) (sec.title.length + 16 + maxParaLen sec.content) := by
          rw [String.length_append, hl2]
          refine Nat.le_trans ?_ (Nat.le_max_right _ _)
          omega
        have hws : pyStrip (sec.title ++ "\n\n") = "" →
            (sec.title ++ "\n\n").length ≤ sec.title.length + 2 := by
          intro _
          rw [String.length_append, hl2]
        have hrem : ∀ p ∈ pySplit sec.content "\n\n",
            (pyStrip p).length ≤ maxParaLen sec.content := by
          intro q hq
          by_cases hq0 : pyStrip q = ""
          · rw [hq0]
            exact Nat.zero_le _
          · have hmem : pyStrip q ∈ cleanedParas sec.content := by
              refine List.mem_filter.mpr ⟨List.mem_map_of_mem _ hq, by simpa using hq0⟩
            exact le_foldr_max (List.mem_map_of_mem String.length hmem)
        have hchunks : ∀ ch' ∈ ([] : List PChunk), ch'.content.length ≤
            max (maxSize + 2) (sec.title.length + 16 + maxParaLen sec.content) := by
          intro _ h'
          cases h'
        have hb := splitLoop_bound maxSize sec.title url sec.id sec.level
          (maxParaLen sec.content) (pySplit sec.content "\n\n") [] (sec.title ++ "\n\n")
          hcc hws hrem hchunks ch hin
        refine Nat.le_trans hb (Nat.max_le.mpr ⟨?_, ?_⟩)
        · have := Nat.le_max_left maxSize (14 + maxParaLen sec.content)
          omega
        · have := Nat.le_max_right maxSize (14 + maxParaLen sec.content)
          omega
  · -- a code chunk: its ctype is "code"
    exfalso
    obtain ⟨cb, _, heq⟩ := List.mem_map.mp h
    rw [← heq] at hty
    simp at hty

theorem c5_section_chunk_bound_witness :
    ((⟨"TT\n\naaaaa", "section",
        [("url", MVal.s "u"), ("section", MVal.s "TT"), ("section_id", MVal.s "s2"),
         ("level", MVal.n 1), ("chunk_type", MVal.s "section")]⟩ : PChunk) ∈
      create_intelligent_chunks 5 ⟨"", [⟨"TT", 1, "aaaaa", "s2"⟩], []⟩ "u") ∧
    ((⟨"TT\n\naaaaa", "section",
        [("url", MVal.s "u"), ("section", MVal.s "TT"), ("section_id", MVal.s "s2"),
         ("level", MVal.n 1), ("chunk_type", MVal.s "section")]⟩ : PChunk).ctype =
      "section") ∧
    (∃ sec ∈ (⟨"", [⟨"TT", 1, "aaaaa", "s2"⟩], []⟩ : PageContent).sections,
      (⟨"TT\n\naaaaa", "section",
        [("url", MVal.s "u"), ("section", MVal.s "TT"), ("section_id", MVal.s "s2"),
         ("level", MVal.n 1), ("chunk_type", MVal.s "section")]⟩ : PChunk).content.length ≤
        sec.title.length + 2 + max 5 (14 + maxParaLen sec.content)) :=
  ⟨by decide, rfl,
   c5_section_chunk_bound 5 ⟨"", [⟨"TT", 1, "aaaaa", "s2"⟩], []⟩ "u" _ (by decide) rfl⟩
